import Mathlib

/-
  Verification of the chunk/file analysis pipeline of the project analyzer
  (src/utils/llm_handler.py, src/analyzers/business_analyzer.py,
  src/analyzers/dependency_analyzer.py).

  Shallow embedding conventions:
  * A parsed LLM JSON response is a Python dict whose schema keys are
    entities / processes / relationships / rules; a key can be absent
    (dict.get with a default) or present.  We model such a dict as a record
    of Option fields; the empty dict has every key absent.
  * Python set-valued fields (attributes, methods, entities_involved) are
    modeled as Finset String; set.update is Finset union.
  * Relationship and rule payloads are only moved around by the merge code,
    never inspected, so they are modeled as opaque strings.
  * Stateful code is explicit state passing; a Python run that raises an
    uncaught exception out of the modeled function is Except.error ().
-/

/-- A business entity record as it occurs inside a parsed LLM analysis dict
(name, attributes, methods, relationships, rules).  Attribute and method
collections are modeled as finite sets because the merge code applies
set.update to them. -/
structure BEntity where
  name : String
  attributes : Finset String
  methods : Finset String
  relationships : List String
  rules : List String
deriving DecidableEq

/-- A business process record as it occurs inside a parsed LLM analysis dict
(name, description, steps, entities_involved, critical_paths). -/
structure BProcess where
  name : String
  description : String
  steps : List String
  entities_involved : Finset String
  critical_paths : List String
deriving DecidableEq

/-- A parsed LLM JSON response restricted to the schema keys the merge code
reads.  Each field is an Option: none models an absent dict key (the code
reads every key through dict.get with an empty default). -/
structure ADict where
  entities : Option (List BEntity)
  processes : Option (List BProcess)
  relationships : Option (List String)
  rules : Option (List String)
deriving DecidableEq

/-- The Python empty dict literal, as returned by the error branch of
analyze_chunk: every key absent. -/
def emptyDict : ADict := ⟨none, none, none, none⟩

/-- Python dict truthiness: a dict is truthy iff it has at least one key,
i.e. iff it differs from the empty dict. -/
def dictTruthy (d : ADict) : Bool := decide (d ≠ emptyDict)

/-- Content of one cache file: either a valid JSON serialization of a dict
(written by cache_response), or corrupt text on which json.loads raises. -/
inductive CacheEntry where
  | good (d : ADict)
  | corrupt
deriving DecidableEq

/-- State of one LLMHandler run: the cache directory contents (association
list keyed by hex digest, most recent write first) and a counter of external
LLM calls issued so far (the counter is ghost state used to observe how many
external calls a scenario performs). -/
structure HandlerState where
  cache : List (String × CacheEntry)
  callCount : Nat
deriving DecidableEq

/-- Reading the cache file for a key: the first (most recent) entry wins,
mirroring file overwrite semantics. -/
def lookupCache : List (String × CacheEntry) → String → Option CacheEntry
  | [], _ => none
  | (k, v) :: rest, key => if k = key then some v else lookupCache rest key

/-- cache_response: (over)write the cache file for a key. -/
def putCache (c : List (String × CacheEntry)) (k : String) (v : CacheEntry) :
    List (String × CacheEntry) :=
  (k, v) :: c

/-- create_prompt: the prompt text is a fixed template around the context and
the chunk, hence a deterministic function of (chunk, context). -/
def create_prompt (chunk context : String) : String :=
  "Analyze the following code in the context of " ++ context ++
  ". Extract and provide a JSON response. Code to analyze: " ++ chunk

/-- get_cache_key: sha256 hex digest of the prompt, modeled as an injective
deterministic digest function (the code relies only on determinism). -/
def get_cache_key (prompt : String) : String := "sha256:" ++ prompt

/-- Outcome of one external LLM round trip as seen from inside the try block
of analyze_chunk: either the response body parsed as a JSON dict, or a
failure (network or service error, or a body on which json.loads raises —
both raise inside the same try block). -/
inductive CallOutcome where
  | success (d : ADict)
  | failure
deriving DecidableEq

/-- The external-call branch of analyze_chunk (the body of the try block,
entered after a cache miss): issue the call; on success parse, write the
cache and return the result; on any error return the empty dict. The call
counter increments in both cases because a call was issued. -/
def call_external (oracle : String → CallOutcome) (st : HandlerState)
    (prompt key : String) : ADict × HandlerState :=
  match oracle prompt with
  | CallOutcome.success d =>
      (d, ⟨putCache st.cache key (CacheEntry.good d), st.callCount + 1⟩)
  | CallOutcome.failure =>
      (emptyDict, ⟨st.cache, st.callCount + 1⟩)

/-- analyze_chunk: build prompt and key, read the cache (note: this read is
OUTSIDE the try block, so a corrupt entry makes json.loads raise out of the
function, modeled as Except.error ()), serve truthy cached dicts, otherwise
fall through to the external call.  The semaphore in the miss path is
modeled separately as a transition system (SemStep below); it does not
change the sequential data flow embedded here. -/
def analyze_chunk (oracle : String → CallOutcome) (st : HandlerState)
    (chunk context : String) : Except Unit (ADict × HandlerState) :=
  let prompt := create_prompt chunk context
  let key := get_cache_key prompt
  match lookupCache st.cache key with
  | some CacheEntry.corrupt => Except.error ()
  | some (CacheEntry.good d) =>
      if dictTruthy d then Except.ok (d, st)
      else Except.ok (call_external oracle st prompt key)
  | none => Except.ok (call_external oracle st prompt key)

/-
  Chunk-to-file merge (BusinessAnalyzer._merge_chunk_analyses).
  The loop state carries the accumulated lists plus the two seen-name sets.
  Faithful points: an entity or process name already seen is skipped
  entirely (no field merging at this level), and the relationships of an
  analysis are extended onto the accumulator once per NEWLY SEEN process of
  that analysis (the extend statement sits inside the dedup branch of the
  process loop in the source), while rules are extended once per analysis.
-/

/-- Loop state of merge_chunk_analyses. -/
structure ChunkMergeState where
  entities : List BEntity
  processes : List BProcess
  relationships : List String
  rules : List String
  seen_entities : Finset String
  seen_processes : Finset String
deriving DecidableEq

/-- Body of the entity loop of merge_chunk_analyses: keep the first
occurrence of each name, skip the rest. -/
def addChunkEntity (st : ChunkMergeState) (e : BEntity) : ChunkMergeState :=
  if e.name ∈ st.seen_entities then st
  else { st with
          seen_entities := insert e.name st.seen_entities,
          entities := st.entities ++ [e] }

/-- Body of the process loop of merge_chunk_analyses: keep the first
occurrence of each name; on a newly seen process, also extend the merged
relationship list by the relationships of the CURRENT analysis (this is
where the source extends relationships). -/
def addChunkProcess (rels : List String) (st : ChunkMergeState) (p : BProcess) :
    ChunkMergeState :=
  if p.name ∈ st.seen_processes then st
  else { st with
          seen_processes := insert p.name st.seen_processes,
          processes := st.processes ++ [p],
          relationships := st.relationships ++ rels }

/-- One iteration of the outer loop of merge_chunk_analyses over a single
chunk analysis dict. -/
def mergeChunkStep (st : ChunkMergeState) (a : ADict) : ChunkMergeState :=
  let st1 := (a.entities.getD []).foldl addChunkEntity st
  let st2 := (a.processes.getD []).foldl (addChunkProcess (a.relationships.getD [])) st1
  { st2 with rules := st2.rules ++ (a.rules.getD []) }

/-- The merged per-file result produced by merge_chunk_analyses. -/
structure FileAnalysis where
  entities : List BEntity
  processes : List BProcess
  relationships : List String
  rules : List String
  source_file : String
deriving DecidableEq

/-- Initial loop state of merge_chunk_analyses. -/
def initChunkMergeState : ChunkMergeState := ⟨[], [], [], [], ∅, ∅⟩

/-- merge_chunk_analyses: fold the chunk analyses of one file and tag the
result with the file path. -/
def merge_chunk_analyses (analyses : List ADict) (file_path : String) :
    FileAnalysis :=
  let st := analyses.foldl mergeChunkStep initChunkMergeState
  ⟨st.entities, st.processes, st.relationships, st.rules, file_path⟩

/-
  File-to-layer merge (BusinessAnalyzer._merge_file_analyses together with
  _merge_entity and _merge_process).  Python keeps entities and processes in
  insertion-ordered dicts keyed by name; we model each dict as an
  insertion-ordered list whose names are pairwise distinct, updated in
  place.
-/

/-- An entity record at the file-merge level: the entity fields plus the
source_files provenance key that _merge_file_analyses adds to the dict. -/
structure FEntity where
  name : String
  attributes : Finset String
  methods : Finset String
  relationships : List String
  rules : List String
  source_files : Finset String
deriving DecidableEq

/-- Promotion of a chunk-level entity record to a file-merge record on its
first occurrence: the dict is stored unchanged and gets a fresh
source_files singleton. -/
def toFEntity (e : BEntity) (src : String) : FEntity :=
  ⟨e.name, e.attributes, e.methods, e.relationships, e.rules, {src}⟩

/-- merge_entity: set-union attributes and methods, concatenate
relationships and rules onto the existing record (Python set.update and
list.extend, mutating the existing dict). -/
def merge_entity (existing : FEntity) (new : BEntity) : FEntity :=
  { existing with
      attributes := existing.attributes ∪ new.attributes,
      methods := existing.methods ∪ new.methods,
      relationships := existing.relationships ++ new.relationships,
      rules := existing.rules ++ new.rules }

/-- merge_process: keep the strictly longer description, append the new
steps that are not in the set of existing steps computed BEFORE the
extension, union entities_involved, concatenate critical_paths. -/
def merge_process (existing new : BProcess) : BProcess :=
  { existing with
      description :=
        if existing.description.length < new.description.length
        then new.description else existing.description,
      steps := existing.steps ++
        new.steps.filter (fun s => decide (s ∉ existing.steps)),
      entities_involved := existing.entities_involved ∪ new.entities_involved,
      critical_paths := existing.critical_paths ++ new.critical_paths }

/-- Loop state of merge_file_analyses: the merged entity and process dicts
(insertion-ordered, names unique) plus the accumulated lists. -/
structure FileMergeState where
  entities : List FEntity
  processes : List BProcess
  relationships : List String
  rules : List String
deriving DecidableEq

/-- In-place update of the record with a given name in an
insertion-ordered dict modeled as a list. -/
def updateEntityByName (l : List FEntity) (n : String) (f : FEntity → FEntity) :
    List FEntity :=
  match l with
  | [] => []
  | e :: rest =>
      if e.name = n then f e :: rest else e :: updateEntityByName rest n f

/-- In-place update of the process with a given name. -/
def updateProcessByName (l : List BProcess) (n : String) (f : BProcess → BProcess) :
    List BProcess :=
  match l with
  | [] => []
  | p :: rest =>
      if p.name = n then f p :: rest else p :: updateProcessByName rest n f

/-- Body of the entity loop of merge_file_analyses: first occurrence of a
name creates the record with a singleton source_files set; a later
occurrence is merged in via merge_entity and the current source file is
added to the provenance set. -/
def addFileEntity (src : String) (st : FileMergeState) (e : BEntity) :
    FileMergeState :=
  if st.entities.any (fun fe => fe.name == e.name) then
    { st with
        entities := updateEntityByName st.entities e.name
          (fun fe =>
            let fe1 := merge_entity fe e
            { fe1 with source_files := insert src fe1.source_files }) }
  else
    { st with entities := st.entities ++ [toFEntity e src] }

/-- Body of the process loop of merge_file_analyses: first occurrence wins
creation, later occurrences are merged via merge_process. -/
def addFileProcess (st : FileMergeState) (p : BProcess) : FileMergeState :=
  if st.processes.any (fun q => q.name == p.name) then
    { st with
        processes := updateProcessByName st.processes p.name
          (fun q => merge_process q p) }
  else
    { st with processes := st.processes ++ [p] }

/-- One iteration of the outer loop of merge_file_analyses over one
per-file analysis. -/
def mergeFileStep (st : FileMergeState) (a : FileAnalysis) : FileMergeState :=
  let st1 := a.entities.foldl (addFileEntity a.source_file) st
  let st2 := a.processes.foldl addFileProcess st1
  { st2 with
      relationships := st2.relationships ++ a.relationships,
      rules := st2.rules ++ a.rules }

/-- merge_file_analyses: fold the per-file analyses of one layer. -/
def merge_file_analyses (analyses : List FileAnalysis) : FileMergeState :=
  analyses.foldl mergeFileStep ⟨[], [], [], []⟩

/-
  Dependency graph (DependencyAnalyzer over a networkx DiGraph).
  Node attributes and edge attributes carry no weight in the claims below,
  so a graph is its ordered node list and ordered edge list.  The discovered
  relationship lists passed to the builders below are the parsed results of
  the corresponding analyze_chunk calls (analysis.get with an empty default).
-/

/-- A directed graph as built through the networkx add_node and add_edge
calls of DependencyAnalyzer: insertion-ordered node and edge lists without
duplicates. -/
structure DepGraph where
  nodes : List String
  edges : List (String × String)
deriving DecidableEq

/-- The empty graph that DependencyAnalyzer starts from. -/
def emptyDepGraph : DepGraph := ⟨[], []⟩

/-- networkx add_node: add the node if absent (attribute handling is not
modeled). -/
def add_node (g : DepGraph) (n : String) : DepGraph :=
  if n ∈ g.nodes then g else { g with nodes := g.nodes ++ [n] }

/-- networkx add_edge: first silently add BOTH endpoints as nodes if they
are absent, then add the edge if absent. -/
def add_edge (g : DepGraph) (u v : String) : DepGraph :=
  let g1 := add_node (add_node g u) v
  if (u, v) ∈ g1.edges then g1 else { g1 with edges := g1.edges ++ [(u, v)] }

/-- A source/target pair from a discovered relationship dict. -/
structure RelPair where
  source : String
  target : String
deriving DecidableEq

/-- Namespaced node id of a business entity. -/
def entityNodeId (n : String) : String := "entity:" ++ n

/-- analyze_business_dependencies restricted to its graph effects: add one
node per entity, one edge per declared dependency, then one edge per
LLM-discovered relationship — every add_edge here is unguarded.  Entities
are passed as (name, dependency names); the remaining BusinessEntity fields
only feed node attributes, which are not modeled. -/
def analyze_business_dependencies (g : DepGraph)
    (entities : List (String × List String)) (discovered : List RelPair) :
    DepGraph :=
  let g1 := entities.foldl
    (fun g ne =>
      let g0 := add_node g (entityNodeId ne.1)
      ne.2.foldl (fun gg dep => add_edge gg (entityNodeId ne.1) (entityNodeId dep)) g0)
    g
  discovered.foldl
    (fun gg rel => add_edge gg (entityNodeId rel.source) (entityNodeId rel.target)) g1

/-- analyze_code_dependencies restricted to its graph effects: add one node
per component path, one edge per declared dependency (unguarded), then one
edge per LLM-discovered implicit dependency, which is the ONLY pass guarded
by key membership of both endpoints in the components dict. -/
def analyze_code_dependencies (g : DepGraph)
    (components : List (String × List String)) (implicitDeps : List RelPair) :
    DepGraph :=
  let g1 := components.foldl
    (fun g pc =>
      let g0 := add_node g pc.1
      pc.2.foldl (fun gg dep => add_edge gg pc.1 dep) g0)
    g
  implicitDeps.foldl
    (fun gg dep =>
      if dep.source ∈ components.map Prod.fst ∧ dep.target ∈ components.map Prod.fst
      then add_edge gg dep.source dep.target
      else gg) g1

/-
  Concurrency model of the LLMHandler semaphore (asyncio.Semaphore with
  initial value batch_size).  Each analyze_chunk task is in one of five
  phases; the cache contents are abstracted into the nondeterministic
  hit/miss choice at the cache-check suspensionless step.  This
  over-approximates every interleaving the cooperative scheduler can
  produce.
-/

/-- Phase of one analyze_chunk task with respect to the semaphore. -/
inductive TaskPhase where
  | idle
  | waiting
  | running
  | doneHit
  | doneCall
deriving DecidableEq

/-- Number of tasks whose external call is in flight (inside the
async-with block). -/
def runningCount : List TaskPhase → Nat
  | [] => 0
  | TaskPhase.running :: rest => runningCount rest + 1
  | _ :: rest => runningCount rest

/-- Global state: free semaphore slots plus the phase of every task. -/
structure SemState where
  sem : Nat
  tasks : List TaskPhase
deriving DecidableEq

/-- One scheduler step.  A hit serves the cached dict and finishes without
touching the semaphore; a miss moves the task to the acquire queue;
acquire consumes a free slot; release returns it when the call finishes
(the async-with block releases on both normal and error exit). -/
inductive SemStep : SemState → SemState → Prop where
  | hit (sem : Nat) (pre post : List TaskPhase) :
      SemStep ⟨sem, pre ++ TaskPhase.idle :: post⟩
              ⟨sem, pre ++ TaskPhase.doneHit :: post⟩
  | miss (sem : Nat) (pre post : List TaskPhase) :
      SemStep ⟨sem, pre ++ TaskPhase.idle :: post⟩
              ⟨sem, pre ++ TaskPhase.waiting :: post⟩
  | acquire (sem : Nat) (pre post : List TaskPhase) :
      SemStep ⟨sem + 1, pre ++ TaskPhase.waiting :: post⟩
              ⟨sem, pre ++ TaskPhase.running :: post⟩
  | release (sem : Nat) (pre post : List TaskPhase) :
      SemStep ⟨sem, pre ++ TaskPhase.running :: post⟩
              ⟨sem + 1, pre ++ TaskPhase.doneCall :: post⟩

/-- Initial state of a run: batchSize free slots, every task idle. -/
def initSemState (batchSize numTasks : Nat) : SemState :=
  ⟨batchSize, List.replicate numTasks TaskPhase.idle⟩

/-- States reachable by the scheduler from the initial state. -/
def SemReachable (batchSize numTasks : Nat) (s : SemState) : Prop :=
  Relation.ReflTransGen SemStep (initSemState batchSize numTasks) s

/-
  Theorems.  Claim ids refer to the frozen claim list of this verification.
-/

/-- Observation helper for claim C2: run analyze_chunk twice on the same
(chunk, context) pair and report the total number of external calls issued,
or none if an invocation raised. -/
def callsAfterTwoRuns (oracle : String → CallOutcome) (st : HandlerState)
    (chunk context : String) : Option Nat :=
  match analyze_chunk oracle st chunk context with
  | Except.ok (_, st1) =>
      match analyze_chunk oracle st1 chunk context with
      | Except.ok (_, st2) => some st2.callCount
      | Except.error _ => none
  | Except.error _ => none

/-- C2 counterexample: with an external service that successfully returns
the empty JSON object, two invocations of analyze_chunk on the identical
(chunk, context) pair issue TWO external calls, not at most one — the first
call's empty result is cached but the truthiness test treats it as a miss. -/
theorem c2_counterexample :
    callsAfterTwoRuns (fun _ => CallOutcome.success emptyDict) ⟨[], 0⟩
      "chunk" "ctx" = some 2 := by
  rfl

/-- C2 (amended): if the first invocation of analyze_chunk returns a
NON-EMPTY mapping d, then d is stored in the cache under the prompt's
digest, and a second invocation with the identical (chunk, context) pair
returns the same result with an unchanged handler state — in particular no
new external call (the call counter of the returned state is unchanged). -/
theorem c2_amended (oracle : String → CallOutcome) (st st1 : HandlerState)
    (chunk context : String) (d : ADict)
    (h : analyze_chunk oracle st chunk context = Except.ok (d, st1))
    (hne : d ≠ emptyDict) :
    analyze_chunk oracle st1 chunk context = Except.ok (d, st1) ∧
    lookupCache st1.cache (get_cache_key (create_prompt chunk context)) =
      some (CacheEntry.good d) := by
  have htru : dictTruthy d = true := by
    simp [dictTruthy, hne]
  simp only [analyze_chunk] at h
  cases hc : lookupCache st.cache (get_cache_key (create_prompt chunk context)) with
  | none =>
      simp only [hc, call_external] at h
      cases ho : oracle (create_prompt chunk context) with
      | success d0 =>
          simp only [ho, Except.ok.injEq, Prod.mk.injEq] at h
          obtain ⟨rfl, rfl⟩ := h
          constructor
          · simp [analyze_chunk, putCache, lookupCache, htru]
          · simp [putCache, lookupCache]
      | failure =>
          simp only [ho, Except.ok.injEq, Prod.mk.injEq] at h
          exact absurd h.1.symm hne
  | some entry =>
      cases entry with
      | corrupt =>
          simp only [hc] at h
          exact absurd h (by simp)
      | good d0 =>
          simp only [hc] at h
          by_cases htru0 : dictTruthy d0 = true
          · simp only [htru0, if_true, Except.ok.injEq, Prod.mk.injEq] at h
            obtain ⟨rfl, rfl⟩ := h
            constructor
            · simp [analyze_chunk, hc, htru]
            · exact hc
          · rw [Bool.not_eq_true] at htru0
            simp only [htru0, Bool.false_eq_true, if_false, call_external] at h
            cases ho : oracle (create_prompt chunk context) with
            | success d1 =>
                simp only [ho, Except.ok.injEq, Prod.mk.injEq] at h
                obtain ⟨rfl, rfl⟩ := h
                constructor
                · simp [analyze_chunk, putCache, lookupCache, htru]
                · simp [putCache, lookupCache]
            | failure =>
                simp only [ho, Except.ok.injEq, Prod.mk.injEq] at h
                exact absurd h.1.symm hne

/-- A non-empty successful analysis result: the entities key is present
(with an empty list), so the dict is truthy. -/
def dNE : ADict := ⟨some [], none, none, none⟩

/-- Handler state after one miss that cached dNE. -/
def stNE : HandlerState :=
  ⟨[(get_cache_key (create_prompt "chunk" "ctx"), CacheEntry.good dNE)], 1⟩

/-- C2 amended witness at a concrete input. -/
theorem c2_amended_witness :
    analyze_chunk (fun _ => CallOutcome.success dNE) ⟨[], 0⟩ "chunk" "ctx" =
      Except.ok (dNE, stNE) ∧
    dNE ≠ emptyDict ∧
    analyze_chunk (fun _ => CallOutcome.success dNE) stNE "chunk" "ctx" =
      Except.ok (dNE, stNE) := by
  refine ⟨by rfl, by decide, ?_⟩
  exact (c2_amended (fun _ => CallOutcome.success dNE) ⟨[], 0⟩ stNE
    "chunk" "ctx" dNE (by rfl) (by decide)).1

/-- A chunk analysis dict that contributes nothing to the chunk merge loop
is absorbed: helper for claim C3. -/
theorem mergeChunkStep_emptyDict (st : ChunkMergeState) :
    mergeChunkStep st emptyDict = st := by
  simp [mergeChunkStep, emptyDict]

/-- C3: a failing external call (network/service error or unparseable body)
is caught by analyze_chunk and converted into the empty mapping — the
function returns normally (no exception), nothing is cached, exactly one
external call is recorded; and the chunk-to-file merge of a list of chunk
results in which such an empty result occurs equals the merge of the other
chunks' results, so the file-level merge still succeeds with the other
chunks' contributions. -/
theorem c3_error_degradation (oracle : String → CallOutcome) (st : HandlerState)
    (chunk context : String)
    (hmiss : lookupCache st.cache (get_cache_key (create_prompt chunk context)) = none ∨
             lookupCache st.cache (get_cache_key (create_prompt chunk context)) =
               some (CacheEntry.good emptyDict))
    (hfail : oracle (create_prompt chunk context) = CallOutcome.failure) :
    analyze_chunk oracle st chunk context =
      Except.ok (emptyDict, ⟨st.cache, st.callCount + 1⟩) ∧
    ∀ (pre post : List ADict) (f : String),
      merge_chunk_analyses (pre ++ emptyDict :: post) f =
        merge_chunk_analyses (pre ++ post) f := by
  constructor
  · rcases hmiss with hm | hm
    · simp [analyze_chunk, hm, call_external, hfail]
    · simp [analyze_chunk, hm, dictTruthy, call_external, hfail]
  · intro pre post f
    simp only [merge_chunk_analyses, List.foldl_append, List.foldl_cons,
      mergeChunkStep_emptyDict]

/-- C3 witness at a concrete input: empty cache, failing service. -/
theorem c3_witness :
    (lookupCache (⟨[], 0⟩ : HandlerState).cache
        (get_cache_key (create_prompt "c" "k")) = none ∨
      lookupCache (⟨[], 0⟩ : HandlerState).cache
        (get_cache_key (create_prompt "c" "k")) =
        some (CacheEntry.good emptyDict)) ∧
    ((fun _ => CallOutcome.failure) (create_prompt "c" "k") = CallOutcome.failure) ∧
    (analyze_chunk (fun _ => CallOutcome.failure) ⟨[], 0⟩ "c" "k" =
        Except.ok (emptyDict, ⟨[], 1⟩) ∧
      ∀ (pre post : List ADict) (f : String),
        merge_chunk_analyses (pre ++ emptyDict :: post) f =
          merge_chunk_analyses (pre ++ post) f) := by
  refine ⟨Or.inl rfl, rfl, ?_⟩
  exact c3_error_degradation (fun _ => CallOutcome.failure) ⟨[], 0⟩ "c" "k"
    (Or.inl rfl) rfl

/-- Handler state whose cache holds a corrupt entry for the prompt of
chunk "c" in context "k". -/
def corruptSt : HandlerState :=
  ⟨[(get_cache_key (create_prompt "c" "k"), CacheEntry.corrupt)], 0⟩

/-- C6 counterexample: on a cache entry that exists but is not valid JSON,
analyze_chunk does NOT behave as a cache miss: the json.loads error
propagates to the caller (the cache read sits outside the try block), which
refutes the never-a-fatal-error claim. -/
theorem c6_counterexample :
    analyze_chunk (fun _ => CallOutcome.failure) corruptSt "c" "k" =
      Except.error () := by
  rfl

/-- C6 (amended): a cache entry that exists but is not valid JSON is NOT
treated as a cache miss: for every such key, analyze_chunk raises the JSON
decode error to its caller as a fatal error, whatever the external service
would answer — the cache read happens outside the try/except block. -/
theorem c6_amended (oracle : String → CallOutcome) (st : HandlerState)
    (chunk context : String)
    (h : lookupCache st.cache (get_cache_key (create_prompt chunk context)) =
          some CacheEntry.corrupt) :
    analyze_chunk oracle st chunk context = Except.error () := by
  simp [analyze_chunk, h]

/-- C6 amended witness at a concrete input. -/
theorem c6_amended_witness :
    lookupCache corruptSt.cache (get_cache_key (create_prompt "c" "k")) =
      some CacheEntry.corrupt ∧
    analyze_chunk (fun _ => CallOutcome.success emptyDict) corruptSt "c" "k" =
      Except.error () := by
  refine ⟨by rfl, ?_⟩
  exact c6_amended (fun _ => CallOutcome.success emptyDict) corruptSt "c" "k"
    (by rfl)

/-- C10: a cached entry holding the EMPTY mapping is treated exactly like a
cache miss: analyze_chunk falls through to the external-call branch (the
truthiness test rejects the falsy empty dict), and every such invocation
increments the external call counter by one — a legitimately empty cached
result is never served from the cache. -/
theorem c10_empty_cached_is_miss (oracle : String → CallOutcome)
    (st : HandlerState) (chunk context : String)
    (h : lookupCache st.cache (get_cache_key (create_prompt chunk context)) =
          some (CacheEntry.good emptyDict)) :
    analyze_chunk oracle st chunk context =
      Except.ok (call_external oracle st (create_prompt chunk context)
        (get_cache_key (create_prompt chunk context))) ∧
    ∀ (d : ADict) (st1 : HandlerState),
      analyze_chunk oracle st chunk context = Except.ok (d, st1) →
      st1.callCount = st.callCount + 1 := by
  have h1 : analyze_chunk oracle st chunk context =
      Except.ok (call_external oracle st (create_prompt chunk context)
        (get_cache_key (create_prompt chunk context))) := by
    simp [analyze_chunk, h, dictTruthy]
  refine ⟨h1, ?_⟩
  intro d st1 h2
  rw [h1] at h2
  simp only [Except.ok.injEq] at h2
  cases ho : oracle (create_prompt chunk context) with
  | success d0 =>
      simp only [call_external, ho, Prod.mk.injEq] at h2
      rw [← h2.2]
  | failure =>
      simp only [call_external, ho, Prod.mk.injEq] at h2
      rw [← h2.2]

/-- Handler state whose cache holds the empty dict for the prompt of chunk
"c" in context "k". -/
def emptyCachedSt : HandlerState :=
  ⟨[(get_cache_key (create_prompt "c" "k"), CacheEntry.good emptyDict)], 5⟩

/-- C10 witness at a concrete input. -/
theorem c10_witness :
    lookupCache emptyCachedSt.cache (get_cache_key (create_prompt "c" "k")) =
      some (CacheEntry.good emptyDict) ∧
    analyze_chunk (fun _ => CallOutcome.success dNE) emptyCachedSt "c" "k" =
      Except.ok (call_external (fun _ => CallOutcome.success dNE) emptyCachedSt
        (create_prompt "c" "k") (get_cache_key (create_prompt "c" "k"))) := by
  refine ⟨by rfl, ?_⟩
  exact (c10_empty_cached_is_miss (fun _ => CallOutcome.success dNE)
    emptyCachedSt "c" "k" (by rfl)).1

/-- C1 counterexample: for business entity A with declared dependency B,
where B was never added as a node (it is not an entity), the built graph
nevertheless contains the edge AND a freshly created node entity:B —
networkx add_edge silently creates missing endpoints, so the dangling edge
is not dropped. -/
theorem c1_counterexample :
    (analyze_business_dependencies emptyDepGraph [("A", ["B"])] []).nodes =
      ["entity:A", "entity:B"] ∧
    (analyze_business_dependencies emptyDepGraph [("A", ["B"])] []).edges =
      [("entity:A", "entity:B")] := by
  decide

/-- C1 (amended): endpoint-existence filtering is applied only to the code
layer's LLM-discovered implicit dependencies — an implicit dependency with
a source or target that is not a component key is dropped entirely (no
edge, no node, the fold skips it); every other dependency edge (declared
dependencies, and the business layer's discovered relationships) is added
by an unguarded add_edge, which auto-creates missing endpoint nodes. -/
theorem c1_amended (g : DepGraph) (components : List (String × List String))
    (deps : List RelPair) (dep : RelPair)
    (h : dep.source ∉ components.map Prod.fst ∨
         dep.target ∉ components.map Prod.fst) :
    analyze_code_dependencies g components (dep :: deps) =
      analyze_code_dependencies g components deps ∧
    ∀ (g2 : DepGraph) (rel : RelPair),
      analyze_business_dependencies g2 [] [rel] =
        add_edge g2 (entityNodeId rel.source) (entityNodeId rel.target) := by
  constructor
  · simp only [analyze_code_dependencies, List.foldl_cons]
    congr 1
    rw [if_neg]
    tauto
  · intro g2 rel
    rfl

/-- C1 amended witness at a concrete input. -/
theorem c1_amended_witness :
    ((RelPair.mk "X" "Y").source ∉ ([("A", ["B"])].map Prod.fst) ∨
      (RelPair.mk "X" "Y").target ∉ ([("A", ["B"])].map Prod.fst)) ∧
    analyze_code_dependencies emptyDepGraph [("A", ["B"])] [⟨"X", "Y"⟩] =
      analyze_code_dependencies emptyDepGraph [("A", ["B"])] [] ∧
    analyze_business_dependencies emptyDepGraph [] [⟨"S", "T"⟩] =
      add_edge emptyDepGraph (entityNodeId "S") (entityNodeId "T") := by
  have h := c1_amended emptyDepGraph [("A", ["B"])] [] ⟨"X", "Y"⟩
    (Or.inl (by decide))
  exact ⟨Or.inl (by decide), h.1, h.2 emptyDepGraph ⟨"S", "T"⟩⟩

/-- The Order entity as reported by a first chunk: attributes a and b. -/
def orderAB : BEntity := ⟨"Order", {"a", "b"}, ∅, [], []⟩

/-- The Order entity as reported by a second chunk: attributes b and c. -/
def orderBC : BEntity := ⟨"Order", {"b", "c"}, ∅, [], []⟩

/-- Chunk analysis dict reporting orderAB. -/
def dictAB : ADict := ⟨some [orderAB], none, none, none⟩

/-- Chunk analysis dict reporting orderBC. -/
def dictBC : ADict := ⟨some [orderBC], none, none, none⟩

/-- C4 counterexample: in the chunk-to-file merge, two chunks of one file
reporting entity Order with attribute sets {a,b} and {b,c} do NOT merge
into attribute set {a,b,c}: the merge keeps the first record unchanged and
drops the second entirely. -/
theorem c4_counterexample :
    (merge_chunk_analyses [dictAB, dictBC] "f").entities = [orderAB] ∧
    orderAB.attributes ≠ {"a", "b", "c"} := by
  decide

/-- C4 (amended): the chunk-to-file merge deduplicates entities by name
keeping the FIRST occurrence only (no field union at that level); the
attribute/method set union happens one level up, in the file-to-layer
merge's merge_entity, whose result carries the set union of the two
records' attributes and methods. -/
theorem c4_amended (e1 e2 : BEntity) (fe : FEntity) (f : String)
    (h : e2.name = e1.name) :
    (merge_chunk_analyses
        [⟨some [e1], none, none, none⟩, ⟨some [e2], none, none, none⟩]
        f).entities = [e1] ∧
    (merge_entity fe e2).attributes = fe.attributes ∪ e2.attributes ∧
    (merge_entity fe e2).methods = fe.methods ∪ e2.methods := by
  refine ⟨?_, rfl, rfl⟩
  simp [merge_chunk_analyses, mergeChunkStep, addChunkEntity,
    initChunkMergeState, h]

/-- An already-merged file-level Order record with attributes a and b. -/
def feAB : FEntity := ⟨"Order", {"a", "b"}, ∅, [], [], {"f1"}⟩

/-- C4 amended witness at a concrete input: the file-level merge of
attribute sets {a,b} and {b,c} is {a,b,c}. -/
theorem c4_amended_witness :
    orderBC.name = orderAB.name ∧
    (merge_chunk_analyses [dictAB, dictBC] "g").entities = [orderAB] ∧
    (merge_entity feAB orderBC).attributes = {"a", "b", "c"} := by
  have h := c4_amended orderAB orderBC feAB "g" (by rfl)
  refine ⟨rfl, ?_, ?_⟩
  · simpa [dictAB, dictBC] using h.1
  · rw [h.2.1]
    decide

/-- C7 counterexample: merging a process that has no steps yet with a new
version whose step list repeats the string save produces the step list
[save, save] — a step string occurs twice, because the membership filter
only consults the steps present BEFORE the merge, not the ones being
appended. -/
theorem c7_counterexample :
    (merge_process ⟨"p", "", [], ∅, []⟩ ⟨"p", "", ["save", "save"], ∅, []⟩).steps
      = ["save", "save"] ∧
    ¬ (merge_process ⟨"p", "", [], ∅, []⟩
        ⟨"p", "", ["save", "save"], ∅, []⟩).steps.Nodup := by
  decide

/-- C7 (amended): the merged step list is the existing list followed, in
first-seen order, by exactly the new steps absent from the existing list
(so a step never migrates across the two lists and the merged membership is
the union); the no-duplicate guarantee holds whenever BOTH input step lists
are themselves duplicate-free, but duplicates inside one input list
survive the merge. -/
theorem c7_amended (p q : BProcess) (hp : p.steps.Nodup) (hq : q.steps.Nodup) :
    (∀ s : String, s ∈ (merge_process p q).steps ↔ (s ∈ p.steps ∨ s ∈ q.steps)) ∧
    (merge_process p q).steps.Nodup := by
  constructor
  · intro s
    simp only [merge_process, List.mem_append, List.mem_filter,
      decide_eq_true_eq]
    constructor
    · rintro (hs | ⟨hs, _⟩)
      · exact Or.inl hs
      · exact Or.inr hs
    · rintro (hs | hs)
      · exact Or.inl hs
      · by_cases hmem : s ∈ p.steps
        · exact Or.inl hmem
        · exact Or.inr ⟨hs, hmem⟩
  · refine List.Nodup.append hp (hq.filter _) ?_
    intro a ha hmem
    rw [List.mem_filter, decide_eq_true_eq] at hmem
    exact hmem.2 ha

/-- First process version with steps validate, save. -/
def stepsPA : BProcess := ⟨"p", "", ["validate", "save"], ∅, []⟩

/-- Second process version with steps save, notify. -/
def stepsPB : BProcess := ⟨"p", "", ["save", "notify"], ∅, []⟩

/-- C7 amended witness at the concrete input of the claim: save is not
duplicated and first-seen order is preserved. -/
theorem c7_amended_witness :
    stepsPA.steps.Nodup ∧ stepsPB.steps.Nodup ∧
    (merge_process stepsPA stepsPB).steps = ["validate", "save", "notify"] ∧
    (merge_process stepsPA stepsPB).steps.Nodup := by
  refine ⟨by decide, by decide, by decide, ?_⟩
  exact (c7_amended stepsPA stepsPB (by decide) (by decide)).2

/-- A first process occurrence with a fresh name. -/
def procOne : BProcess := ⟨"p1", "", [], ∅, []⟩

/-- A second process occurrence with another fresh name. -/
def procTwo : BProcess := ⟨"p2", "", [], ∅, []⟩

/-- C8: evaluation of the chunk-to-file merge at the failing inputs. A
chunk analysis reporting one relationship and NO process contributes its
relationship ZERO times to the merged result, and the same analysis
reporting two new processes contributes the relationship TWICE — the
relationship extension is executed once per newly seen process, because the
extend statement is nested inside the process-dedup branch instead of
sitting at loop level beside the rules extension. -/
theorem c8_misplaced_relationship_extend :
    (merge_chunk_analyses [⟨none, none, some ["r"], none⟩] "f").relationships
      = [] ∧
    (merge_chunk_analyses [⟨none, some [procOne, procTwo], some ["r"], none⟩]
        "f").relationships = ["r", "r"] := by
  decide

/-- Entity record reported by one chunk: name E, attribute x. -/
def entX : BEntity := ⟨"E", {"x"}, ∅, [], []⟩

/-- Entity record reported by another chunk: same name E, attribute y. -/
def entY : BEntity := ⟨"E", {"y"}, ∅, [], []⟩

/-- Chunk analysis dict reporting entX. -/
def dictX : ADict := ⟨some [entX], none, none, none⟩

/-- Chunk analysis dict reporting entY. -/
def dictY : ADict := ⟨some [entY], none, none, none⟩

/-- C5 counterexample: the chunk-to-file merge is NOT order-insensitive in
its final observable state: merging the same two chunk analyses in the two
arrival orders keeps two genuinely different entity records (first
occurrence wins), not merely differently ordered collections. -/
theorem c5_counterexample :
    (merge_chunk_analyses [dictX, dictY] "f").entities = [entX] ∧
    (merge_chunk_analyses [dictY, dictX] "f").entities = [entY] ∧
    entX ≠ entY := by
  decide

/-- The set of entity names of a merged per-file result. -/
def entityNameSet (fa : FileAnalysis) : Finset String :=
  (fa.entities.map BEntity.name).toFinset

/-- The set of process names of a merged per-file result. -/
def processNameSet (fa : FileAnalysis) : Finset String :=
  (fa.processes.map BProcess.name).toFinset

/-- Effect of the entity loop of the chunk merge on the loop state: the
seen-entity set grows by the names of the processed list, the process side
of the state is untouched, and the name set of the accumulated entity list
keeps tracking the seen set. -/
theorem entFold_state (l : List BEntity) (st : ChunkMergeState) :
    (l.foldl addChunkEntity st).seen_entities =
      st.seen_entities ∪ (l.map BEntity.name).toFinset ∧
    (l.foldl addChunkEntity st).processes = st.processes ∧
    (l.foldl addChunkEntity st).seen_processes = st.seen_processes ∧
    ((st.entities.map BEntity.name).toFinset = st.seen_entities →
      ((l.foldl addChunkEntity st).entities.map BEntity.name).toFinset =
        (l.foldl addChunkEntity st).seen_entities) := by
  induction l generalizing st with
  | nil => simp
  | cons e rest ih =>
      simp only [List.foldl_cons, List.map_cons, List.toFinset_cons]
      by_cases h : e.name ∈ st.seen_entities
      · have he : addChunkEntity st e = st := by
          simp [addChunkEntity, h]
        rw [he]
        obtain ⟨ih1, ih2, ih3, ih4⟩ := ih st
        refine ⟨?_, ih2, ih3, ih4⟩
        rw [ih1, Finset.union_insert, Finset.insert_eq_self.mpr]
        exact Finset.mem_union_left _ h
      · have he : addChunkEntity st e =
            { st with
                seen_entities := insert e.name st.seen_entities,
                entities := st.entities ++ [e] } := by
          simp [addChunkEntity, h]
        rw [he]
        obtain ⟨ih1, ih2, ih3, ih4⟩ := ih
          { st with
              seen_entities := insert e.name st.seen_entities,
              entities := st.entities ++ [e] }
        refine ⟨?_, ih2, ih3, ?_⟩
        · rw [ih1]
          simp [Finset.insert_union, Finset.union_insert]
        · intro hinv
          apply ih4
          simp only [List.map_append, List.toFinset_append, hinv]
          simp only [List.map_cons, List.map_nil, List.toFinset_cons,
            List.toFinset_nil, insert_emptyc_eq]
          rw [Finset.union_comm, ← Finset.insert_eq]

/-- Effect of the process loop of the chunk merge on the loop state: the
seen-process set grows by the names of the processed list, the entity side
is untouched, and the name set of the accumulated process list keeps
tracking the seen set. -/
theorem procFold_state (rels : List String) (l : List BProcess)
    (st : ChunkMergeState) :
    (l.foldl (addChunkProcess rels) st).seen_processes =
      st.seen_processes ∪ (l.map BProcess.name).toFinset ∧
    (l.foldl (addChunkProcess rels) st).entities = st.entities ∧
    (l.foldl (addChunkProcess rels) st).seen_entities = st.seen_entities ∧
    ((st.processes.map BProcess.name).toFinset = st.seen_processes →
      ((l.foldl (addChunkProcess rels) st).processes.map BProcess.name).toFinset =
        (l.foldl (addChunkProcess rels) st).seen_processes) := by
  induction l generalizing st with
  | nil => simp
  | cons p rest ih =>
      simp only [List.foldl_cons, List.map_cons, List.toFinset_cons]
      by_cases h : p.name ∈ st.seen_processes
      · have he : addChunkProcess rels st p = st := by
          simp [addChunkProcess, h]
        rw [he]
        obtain ⟨ih1, ih2, ih3, ih4⟩ := ih st
        refine ⟨?_, ih2, ih3, ih4⟩
        rw [ih1, Finset.union_insert, Finset.insert_eq_self.mpr]
        exact Finset.mem_union_left _ h
      · have he : addChunkProcess rels st p =
            { st with
                seen_processes := insert p.name st.seen_processes,
                processes := st.processes ++ [p],
                relationships := st.relationships ++ rels } := by
          simp [addChunkProcess, h]
        rw [he]
        obtain ⟨ih1, ih2, ih3, ih4⟩ := ih
          { st with
              seen_processes := insert p.name st.seen_processes,
              processes := st.processes ++ [p],
              relationships := st.relationships ++ rels }
        refine ⟨?_, ih2, ih3, ?_⟩
        · rw [ih1]
          simp [Finset.insert_union, Finset.union_insert]
        · intro hinv
          apply ih4
          simp only [List.map_append, List.toFinset_append, hinv]
          simp only [List.map_cons, List.map_nil, List.toFinset_cons,
            List.toFinset_nil, insert_emptyc_eq]
          rw [Finset.union_comm, ← Finset.insert_eq]

/-- Effect of one whole chunk-merge iteration on the two seen-name sets and
on the two name-tracking invariants. -/
theorem mergeChunkStep_facts (st : ChunkMergeState) (a : ADict) :
    (mergeChunkStep st a).seen_entities =
      st.seen_entities ∪ ((a.entities.getD []).map BEntity.name).toFinset ∧
    (mergeChunkStep st a).seen_processes =
      st.seen_processes ∪ ((a.processes.getD []).map BProcess.name).toFinset ∧
    ((st.entities.map BEntity.name).toFinset = st.seen_entities →
      ((mergeChunkStep st a).entities.map BEntity.name).toFinset =
        (mergeChunkStep st a).seen_entities) ∧
    ((st.processes.map BProcess.name).toFinset = st.seen_processes →
      ((mergeChunkStep st a).processes.map BProcess.name).toFinset =
        (mergeChunkStep st a).seen_processes) := by
  obtain ⟨hE1, hE2, hE3, hE4⟩ := entFold_state (a.entities.getD []) st
  obtain ⟨hP1, hP2, hP3, hP4⟩ := procFold_state (a.relationships.getD [])
    (a.processes.getD []) (List.foldl addChunkEntity st (a.entities.getD []))
  simp only [mergeChunkStep]
  refine ⟨?_, ?_, ?_, ?_⟩
  · rw [hP3, hE1]
  · rw [hP1, hE3]
  · intro hinv
    rw [hP2, hP3]
    exact hE4 hinv
  · intro hinv
    apply hP4
    rw [hE2, hE3]
    exact hinv

/-- The seen-name sets of the whole chunk-merge fold are unions of the
per-analysis name sets, and the name-tracking invariants are preserved. -/
theorem chunkFold_state (l : List ADict) (st : ChunkMergeState) :
    (l.foldl mergeChunkStep st).seen_entities =
      l.foldl (fun s a => s ∪ ((a.entities.getD []).map BEntity.name).toFinset)
        st.seen_entities ∧
    (l.foldl mergeChunkStep st).seen_processes =
      l.foldl (fun s a => s ∪ ((a.processes.getD []).map BProcess.name).toFinset)
        st.seen_processes ∧
    ((st.entities.map BEntity.name).toFinset = st.seen_entities →
      ((l.foldl mergeChunkStep st).entities.map BEntity.name).toFinset =
        (l.foldl mergeChunkStep st).seen_entities) ∧
    ((st.processes.map BProcess.name).toFinset = st.seen_processes →
      ((l.foldl mergeChunkStep st).processes.map BProcess.name).toFinset =
        (l.foldl mergeChunkStep st).seen_processes) := by
  induction l generalizing st with
  | nil => simp
  | cons a rest ih =>
      simp only [List.foldl_cons]
      obtain ⟨ih1, ih2, ih3, ih4⟩ := ih (mergeChunkStep st a)
      obtain ⟨hs1, hs2, hs3, hs4⟩ := mergeChunkStep_facts st a
      refine ⟨?_, ?_, ?_, ?_⟩
      · rw [ih1, hs1]
      · rw [ih2, hs2]
      · intro hinv
        exact ih3 (hs3 hinv)
      · intro hinv
        exact ih4 (hs4 hinv)

/-- The entity-name and process-name sets of a merged per-file result are
the unions of the per-chunk name sets, independent of the loop state
details. -/
theorem merge_chunk_nameSets (l : List ADict) (f : String) :
    entityNameSet (merge_chunk_analyses l f) =
      l.foldl (fun s a => s ∪ ((a.entities.getD []).map BEntity.name).toFinset)
        ∅ ∧
    processNameSet (merge_chunk_analyses l f) =
      l.foldl (fun s a => s ∪ ((a.processes.getD []).map BProcess.name).toFinset)
        ∅ := by
  obtain ⟨h1, h2, h3, h4⟩ := chunkFold_state l initChunkMergeState
  have hE := h3 (by simp [initChunkMergeState])
  have hP := h4 (by simp [initChunkMergeState])
  constructor
  · simp only [entityNameSet, merge_chunk_analyses]
    rw [hE, h1]
    simp [initChunkMergeState]
  · simp only [processNameSet, merge_chunk_analyses]
    rw [hP, h2]
    simp [initChunkMergeState]

/-- A fold that only accumulates unions is invariant under permutation of
the folded list. -/
theorem foldl_union_perm {β : Type} (g : β → Finset String)
    {l l2 : List β} (h : l.Perm l2) :
    ∀ s : Finset String,
      l.foldl (fun s a => s ∪ g a) s = l2.foldl (fun s a => s ∪ g a) s := by
  induction h with
  | nil =>
      intro s
      rfl
  | cons x _ ih =>
      intro s
      simp only [List.foldl_cons]
      exact ih _
  | swap x y l =>
      intro s
      simp only [List.foldl_cons]
      rw [Finset.union_right_comm]
  | trans _ _ ih1 ih2 =>
      intro s
      rw [ih1, ih2]

/-- C5 (amended): the chunk-to-file merge is NOT order-insensitive in its
full observable state (first occurrence wins for same-named records, see
the counterexample), but the SETS of entity names and of process names it
produces are arrival-order-insensitive: any two permuted arrival orders of
the same chunk analyses yield the same entity-name set and the same
process-name set. -/
theorem c5_amended (l l2 : List ADict) (f g : String) (h : l.Perm l2) :
    entityNameSet (merge_chunk_analyses l f) =
      entityNameSet (merge_chunk_analyses l2 g) ∧
    processNameSet (merge_chunk_analyses l f) =
      processNameSet (merge_chunk_analyses l2 g) := by
  obtain ⟨hE1, hP1⟩ := merge_chunk_nameSets l f
  obtain ⟨hE2, hP2⟩ := merge_chunk_nameSets l2 g
  constructor
  · rw [hE1, hE2, foldl_union_perm _ h]
  · rw [hP1, hP2, foldl_union_perm _ h]

/-- C5 amended witness at a concrete input: the two arrival orders of the
counterexample still agree on name sets. -/
theorem c5_amended_witness :
    ([dictX, dictY] : List ADict).Perm [dictY, dictX] ∧
    entityNameSet (merge_chunk_analyses [dictX, dictY] "f") =
      entityNameSet (merge_chunk_analyses [dictY, dictX] "g") ∧
    processNameSet (merge_chunk_analyses [dictX, dictY] "f") =
      processNameSet (merge_chunk_analyses [dictY, dictX] "g") := by
  have hp : ([dictX, dictY] : List ADict).Perm [dictY, dictX] :=
    List.Perm.swap dictY dictX []
  have h := c5_amended [dictX, dictY] [dictY, dictX] "f" "g" hp
  exact ⟨hp, h.1, h.2⟩

/-- runningCount distributes over list append. -/
theorem runningCount_append (l1 l2 : List TaskPhase) :
    runningCount (l1 ++ l2) = runningCount l1 + runningCount l2 := by
  induction l1 with
  | nil => simp [runningCount]
  | cons p rest ih =>
      cases p <;> simp [runningCount, ih]
      omega

/-- No task of the initial state is running. -/
theorem runningCount_replicate_idle (k : Nat) :
    runningCount (List.replicate k TaskPhase.idle) = 0 := by
  induction k with
  | zero => rfl
  | succ n ih => simpa [List.replicate_succ, runningCount]

/-- Every scheduler step preserves the slot-accounting invariant: free
slots plus in-flight calls is constant. -/
theorem semStep_preserves (n : Nat) {s s2 : SemState} (h : SemStep s s2)
    (hinv : s.sem + runningCount s.tasks = n) :
    s2.sem + runningCount s2.tasks = n := by
  cases h <;>
    simp only [runningCount_append, runningCount] at hinv ⊢ <;>
    omega

/-- The slot-accounting invariant holds in every reachable state. -/
theorem semReachable_invariant (n k : Nat) (s : SemState)
    (h : SemReachable n k s) : s.sem + runningCount s.tasks = n := by
  induction h with
  | refl => simp [initSemState, runningCount_replicate_idle]
  | tail _ hstep ih => exact semStep_preserves n hstep ih

/-- C9: in every state reachable by the cooperative scheduler from a run
start with batchSize free slots, the number of simultaneously in-flight
external LLM calls is at most batchSize; and a cache hit finishes its task
in one step that leaves the semaphore untouched — it moves straight from
the cache check to completion, never acquiring a slot. -/
theorem c9_concurrency_cap (n k : Nat) (s : SemState)
    (h : SemReachable n k s) :
    runningCount s.tasks ≤ n ∧
    ∀ (sem : Nat) (pre post : List TaskPhase),
      SemStep ⟨sem, pre ++ TaskPhase.idle :: post⟩
              ⟨sem, pre ++ TaskPhase.doneHit :: post⟩ := by
  refine ⟨?_, fun sem pre post => SemStep.hit sem pre post⟩
  have hi := semReachable_invariant n k s h
  omega

/-- C9 witness at a concrete input: batchSize 2, three tasks, the initial
state (reachable by the empty step sequence). -/
theorem c9_concurrency_cap_witness :
    SemReachable 2 3 (initSemState 2 3) ∧
    runningCount (initSemState 2 3).tasks ≤ 2 ∧
    SemStep ⟨7, [] ++ TaskPhase.idle :: []⟩ ⟨7, [] ++ TaskPhase.doneHit :: []⟩ := by
  have h := c9_concurrency_cap 2 3 (initSemState 2 3) Relation.ReflTransGen.refl
  exact ⟨Relation.ReflTransGen.refl, h.1, h.2 7 [] []⟩
